import Mathlib

set_option maxHeartbeats 1000000

/-!
Verification development for the Innkeeper talent-tree pipeline
(`src/engine.py`).  Upstream JSON values are embedded as `JVal`; the
Python behaviours the code relies on (`dict.get`, truthiness, iteration,
`len`, `int(...)` conversion, `in`, `str.split`) are translated as total
Lean functions, and Python exceptions are embedded as `Except String`.
-/

/-- A JSON value as Python represents it (booleans and floats do not occur
in the payloads the engine handles and are not modelled). -/
inductive JVal where
  | jnull
  | jint (n : Int)
  | jstr (s : String)
  | jarr (elems : List JVal)
  | jobj (fields : List (String × JVal))

open JVal

mutual

def jvalDecEq : (a b : JVal) → Decidable (a = b)
  | .jnull, .jnull => isTrue rfl
  | .jnull, .jint _ => isFalse (fun h => JVal.noConfusion h)
  | .jnull, .jstr _ => isFalse (fun h => JVal.noConfusion h)
  | .jnull, .jarr _ => isFalse (fun h => JVal.noConfusion h)
  | .jnull, .jobj _ => isFalse (fun h => JVal.noConfusion h)
  | .jint _, .jnull => isFalse (fun h => JVal.noConfusion h)
  | .jint m, .jint n =>
    match decEq m n with
    | isTrue h => isTrue (by rw [h])
    | isFalse h => isFalse (fun hh => h (by injection hh))
  | .jint _, .jstr _ => isFalse (fun h => JVal.noConfusion h)
  | .jint _, .jarr _ => isFalse (fun h => JVal.noConfusion h)
  | .jint _, .jobj _ => isFalse (fun h => JVal.noConfusion h)
  | .jstr _, .jnull => isFalse (fun h => JVal.noConfusion h)
  | .jstr _, .jint _ => isFalse (fun h => JVal.noConfusion h)
  | .jstr s, .jstr t =>
    match decEq s t with
    | isTrue h => isTrue (by rw [h])
    | isFalse h => isFalse (fun hh => h (by injection hh))
  | .jstr _, .jarr _ => isFalse (fun h => JVal.noConfusion h)
  | .jstr _, .jobj _ => isFalse (fun h => JVal.noConfusion h)
  | .jarr _, .jnull => isFalse (fun h => JVal.noConfusion h)
  | .jarr _, .jint _ => isFalse (fun h => JVal.noConfusion h)
  | .jarr _, .jstr _ => isFalse (fun h => JVal.noConfusion h)
  | .jarr xs, .jarr ys =>
    match jvalListDecEq xs ys with
    | isTrue h => isTrue (by rw [h])
    | isFalse h => isFalse (fun hh => h (by injection hh))
  | .jarr _, .jobj _ => isFalse (fun h => JVal.noConfusion h)
  | .jobj _, .jnull => isFalse (fun h => JVal.noConfusion h)
  | .jobj _, .jint _ => isFalse (fun h => JVal.noConfusion h)
  | .jobj _, .jstr _ => isFalse (fun h => JVal.noConfusion h)
  | .jobj _, .jarr _ => isFalse (fun h => JVal.noConfusion h)
  | .jobj fs, .jobj gs =>
    match jvalFieldsDecEq fs gs with
    | isTrue h => isTrue (by rw [h])
    | isFalse h => isFalse (fun hh => h (by injection hh))

def jvalListDecEq : (a b : List JVal) → Decidable (a = b)
  | [], [] => isTrue rfl
  | [], _ :: _ => isFalse (fun h => List.noConfusion h)
  | _ :: _, [] => isFalse (fun h => List.noConfusion h)
  | x :: xs, y :: ys =>
    match jvalDecEq x y with
    | isFalse h => isFalse (fun hh => h (by injection hh))
    | isTrue h1 =>
      match jvalListDecEq xs ys with
      | isTrue h2 => isTrue (by rw [h1, h2])
      | isFalse h2 => isFalse (fun hh => h2 (by injection hh))

def jvalFieldsDecEq : (a b : List (String × JVal)) → Decidable (a = b)
  | [], [] => isTrue rfl
  | [], _ :: _ => isFalse (fun h => List.noConfusion h)
  | _ :: _, [] => isFalse (fun h => List.noConfusion h)
  | (k, v) :: fs, (l, w) :: gs =>
    match decEq k l with
    | isFalse h =>
      isFalse (fun hh => by
        injection hh with h1 h2
        injection h1 with hk hv
        exact h hk)
    | isTrue hk =>
      match jvalDecEq v w with
      | isFalse h =>
        isFalse (fun hh => by
          injection hh with h1 h2
          injection h1 with hk2 hv
          exact h hv)
      | isTrue hv =>
        match jvalFieldsDecEq fs gs with
        | isTrue ht => isTrue (by rw [hk, hv, ht])
        | isFalse h => isFalse (fun hh => h (by injection hh))

end

instance : DecidableEq JVal := jvalDecEq

/-- Python truthiness of a value (`if v:`). -/
def truthy : JVal → Bool
  | .jnull => false
  | .jint n => n != 0
  | .jstr s => s ≠ ""
  | .jarr xs => !xs.isEmpty
  | .jobj fs => !fs.isEmpty

def isJObj : JVal → Bool
  | .jobj _ => true
  | _ => false

def isJInt : JVal → Bool
  | .jint _ => true
  | _ => false

def isJStr : JVal → Bool
  | .jstr _ => true
  | _ => false

/-- Key lookup in a Python dict (JSON object keys are unique). -/
def pyLookup : List (String × JVal) → String → Option JVal
  | [], _ => none
  | (k, v) :: rest, key => if k = key then some v else pyLookup rest key

/-- `d.get(key)` on a dict; `none` when the key is absent.  Callers use it
only on values already checked to be dicts. -/
def pyGet : JVal → String → Option JVal
  | .jobj fs, k => pyLookup fs k
  | _, _ => none

/-- `d.get(key, default)`: a stored JSON `null` is returned as `jnull`,
the default is used only when the key is absent. -/
def pyGetD (v : JVal) (k : String) (d : JVal) : JVal :=
  (pyGet v k).getD d

/-- `_safe_get(obj, key, default)` from engine.py: `obj.get(key, default)`
when `obj` is a dict, the default otherwise. -/
def safe_get (obj : JVal) (k : String) (d : JVal) : JVal :=
  match obj with
  | .jobj _ => pyGetD obj k d
  | _ => d

/-- Python iteration (`for x in v`): lists yield elements, strings yield
one-character strings, dicts yield their keys; integers and `None` raise
`TypeError`. -/
def pyIter : JVal → Except String (List JVal)
  | .jarr xs => .ok xs
  | .jstr s => .ok (s.toList.map fun c => JVal.jstr (String.singleton c))
  | .jobj fs => .ok (fs.map fun f => JVal.jstr f.1)
  | _ => .error "TypeError: object is not iterable"

/-- Python `len(v)`: defined for lists, strings and dicts; raises
`TypeError` otherwise. -/
def pyLen : JVal → Except String Nat
  | .jarr xs => .ok xs.length
  | .jstr s => .ok s.length
  | .jobj fs => .ok fs.length
  | _ => .error "TypeError: object has no len"

/-- Digit run of Python `int(str)` after an optional sign: single
underscores are allowed between digits only. -/
def pyDigits : Nat → List Char → Option Nat
  | acc, [] => some acc
  | acc, c :: rest =>
    if c.isDigit then pyDigits (acc * 10 + (c.toNat - 48)) rest
    else if c = '_' then
      match rest with
      | d :: rest2 =>
        if d.isDigit then pyDigits (acc * 10 + (d.toNat - 48)) rest2 else none
      | [] => none
    else none

def pyDigitsStart : List Char → Option Nat
  | [] => none
  | c :: rest => if c.isDigit then pyDigits (c.toNat - 48) rest else none

def pyTrimChars (l : List Char) : List Char :=
  ((l.dropWhile Char.isWhitespace).reverse.dropWhile Char.isWhitespace).reverse

/-- Python `int(s)` for a string: surrounding whitespace stripped, optional
sign, ASCII digits with underscores between digits (non-ASCII digit
alphabets are not modelled).  `none` embeds the raised `ValueError`. -/
def pyParseInt (s : String) : Option Int :=
  match pyTrimChars s.toList with
  | '+' :: rest => (pyDigitsStart rest).map Int.ofNat
  | '-' :: rest => (pyDigitsStart rest).map fun n => -(n : Int)
  | l => (pyDigitsStart l).map Int.ofNat

/-- Does the pattern occur at the head of the list? -/
def patAt : List Char → List Char → Bool
  | [], _ => true
  | _ :: _, [] => false
  | p :: ps, c :: cs => p == c && patAt ps cs

/-- First occurrence split: `some (before, after)` around the first
occurrence of `sep`. -/
def findSplit (sep : List Char) : List Char → Option (List Char × List Char)
  | [] => if sep.isEmpty then some ([], []) else none
  | c :: rest =>
    if patAt sep (c :: rest) then some ([], (c :: rest).drop sep.length)
    else (findSplit sep rest).map fun p => (c :: p.1, p.2)

/-- Python `s.split(sep)` on character lists (leftmost, non-overlapping),
with enough fuel for any input. -/
def pySplitFuel (sep : List Char) : Nat → List Char → List (List Char)
  | 0, s => [s]
  | fuel + 1, s =>
    match findSplit sep s with
    | some (b, a) => b :: pySplitFuel sep fuel a
    | none => [s]

def pySplit (s sep : List Char) : List (List Char) :=
  pySplitFuel sep (s.length + 1) s

def chunkToString (l : List Char) : String :=
  String.mk l

/-- Single-quote character, used by the embedded Python `repr`. -/
def squote : String :=
  String.singleton (Char.ofNat 39)

def commaSep (l : List String) : String :=
  String.intercalate ", " l

mutual

/-- Python `repr(v)` for the modelled values (string escaping inside
reprs is not modelled; the pipeline never inspects these strings). -/
def pyRepr : JVal → String
  | .jnull => "None"
  | .jint n => toString n
  | .jstr s => squote ++ s ++ squote
  | .jarr xs => "[" ++ commaSep (pyReprList xs) ++ "]"
  | .jobj fs => "\x7b" ++ commaSep (pyReprFields fs) ++ "\x7d"

def pyReprList : List JVal → List String
  | [] => []
  | x :: xs => pyRepr x :: pyReprList xs

def pyReprFields : List (String × JVal) → List String
  | [] => []
  | (k, v) :: fs => (squote ++ k ++ squote ++ ": " ++ pyRepr v) :: pyReprFields fs

end

/-- Python `str(v)`: the string itself for strings, `repr` otherwise. -/
def pyStr : JVal → String
  | .jstr s => s
  | v => pyRepr v

def excOk {α : Type} : Except String α → Bool
  | .ok _ => true
  | .error _ => false

/-! ## The normalized node model built by `_parse_node`

Field values that the Python code stores without conversion are kept as
`JVal` (the code copies e.g. `node.get('id', 0)` into the result whatever
its type is). -/

structure PEntry where
  name : JVal
  spell_id : JVal
  description : JVal
  cast_time : JVal
  cooldown : JVal
  range : JVal
  icon_url : Option JVal := none
deriving DecidableEq

structure PNode where
  id : JVal
  row : JVal
  col : JVal
  pos_x : JVal
  pos_y : JVal
  type : JVal
  max_ranks : Nat
  entries : List PEntry
  locked_by : List JVal
deriving DecidableEq

structure HeroTree where
  id : Int
  name : String
  nodes : List PNode
deriving DecidableEq

structure PGraph where
  class_nodes : List PNode
  spec_nodes : List PNode
  hero_trees : List HeroTree
deriving DecidableEq

/-- The entry fields shared by both branches of `_parse_node`: `st` is the
spell tooltip, `sp` the spell object, `tr` the talent reference. -/
def entryFields (st sp tr : JVal) : PEntry :=
  { name :=
      let n1 := safe_get sp "name" .jnull
      if truthy n1 then n1 else safe_get tr "name" (.jstr "?")
  , spell_id :=
      match sp with
      | .jobj _ => safe_get sp "id" (.jint 0)
      | .jint n => .jint n
      | _ => .jint 0
  , description := safe_get st "description" (.jstr "")
  , cast_time := safe_get st "cast_time" (.jstr "")
  , cooldown := safe_get st "cooldown" (.jstr "")
  , range := safe_get st "range" (.jstr "")
  , icon_url := none }

/-- One alternative of a choice node: non-dict alternatives are skipped
(`if not isinstance(ct, dict): continue`). -/
def choiceEntry : JVal → Option PEntry
  | ct@(.jobj _) =>
    let st := safe_get ct "spell_tooltip" (.jobj [])
    some (entryFields st (safe_get st "spell" (.jobj [])) (safe_get ct "talent" (.jobj [])))
  | _ => none

/-- One rank element of a normal node: non-dict rank elements are skipped. -/
def rankEntry : JVal → Option PEntry
  | ri@(.jobj _) =>
    let tt := safe_get ri "tooltip" (.jobj [])
    let st := safe_get tt "spell_tooltip" (.jobj [])
    some (entryFields st (safe_get st "spell" (.jobj [])) (safe_get tt "talent" (.jobj [])))
  | _ => none

/-- One element of `locked_by`: ints are kept, dicts contribute their
raw `id` value (default `0`), anything else is skipped. -/
def lockedByElem : JVal → Option JVal
  | .jint n => some (.jint n)
  | dep@(.jobj _) => some (pyGetD dep "id" (.jint 0))
  | _ => none

/-- The test `if ranks and isinstance(ranks[0], dict) and
ranks[0].get('choice_of_tooltips'):` — `ok (some cot)` when the choice
branch is taken; the `KeyError` of `ranks[0]` on a non-empty dict (JSON
dict keys are strings, `0` is not among them) is embedded as an error. -/
def choiceCond (ranks : JVal) : Except String (Option JVal) :=
  if truthy ranks then
    match ranks with
    | .jarr (r0 :: _) =>
      match r0 with
      | .jobj _ =>
        let cot := pyGetD r0 "choice_of_tooltips" .jnull
        if truthy cot then .ok (some cot) else .ok none
      | _ => .ok none
    | .jstr _ => .ok none
    | .jobj _ => .error "KeyError: 0"
    | _ => .error "TypeError: not subscriptable"
  else .ok none

/-- The ranks-processing part of `_parse_node`: returns the final
`(type, max_ranks, entries)` triple. -/
def parseRanks (node_type : JVal) (ranks : JVal) : Except String (JVal × Nat × List PEntry) := do
  let rlen ← pyLen ranks
  let cot? ← choiceCond ranks
  match cot? with
  | some cot => do
    let cts ← pyIter cot
    pure (.jstr "CHOICE", 1, cts.filterMap choiceEntry)
  | none => do
    let ritems ← pyIter ranks
    pure (node_type, max rlen 1, ritems.filterMap rankEntry)

/-- `_parse_node` from engine.py.  Python exceptions (iterating an int or
`None`, `len` of an int, subscripting a dict with `0`) are embedded as
errors; everything else is total. -/
def nodeTypeOf (node : JVal) : JVal :=
  match pyGetD node "node_type" (.jstr "ACTIVE") with
  | raw@(.jobj _) => pyGetD raw "type" (.jstr "ACTIVE")
  | .jstr s => .jstr s
  | _ => .jstr "ACTIVE"

def parse_node (node : JVal) : Except String PNode :=
  match node with
  | .jobj _ => do
    let node_type : JVal := nodeTypeOf node
    let deps ← pyIter (pyGetD node "locked_by" (.jarr []))
    let locked_by := deps.filterMap lockedByElem
    let etm ← parseRanks node_type (pyGetD node "ranks" (.jarr []))
    pure { id := pyGetD node "id" (.jint 0)
         , row := pyGetD node "display_row" (.jint 0)
         , col := pyGetD node "display_col" (.jint 0)
         , pos_x := pyGetD node "raw_position_x" (.jint 0)
         , pos_y := pyGetD node "raw_position_y" (.jint 0)
         , type := etm.1
         , max_ranks := etm.2.1
         , entries := etm.2.2
         , locked_by := locked_by }
  | _ => .error "AttributeError: get"

/-- The node-list loops of `_parse_talent_tree`: parse every dict element,
skip everything else. -/
def parseDictNodes : List JVal → Except String (List PNode)
  | [] => .ok []
  | it :: rest =>
    match it with
    | .jobj fs => do
      let n ← parse_node (.jobj fs)
      let ns ← parseDictNodes rest
      pure (n :: ns)
    | _ => parseDictNodes rest

/-- The `spec_ids_in_tree` collection loop: int refs are kept, dict refs
contribute `int(ref['id'])` unless that id is absent or `None`;
`int(...)` of an unparsable string or of a list/dict raises. -/
def collectSpecIds : List JVal → Except String (List Int)
  | [] => .ok []
  | sp :: rest =>
    match sp with
    | .jint n => do
      let ids ← collectSpecIds rest
      pure (n :: ids)
    | .jobj fs =>
      (match pyGet (.jobj fs) "id" with
       | none => collectSpecIds rest
       | some .jnull => collectSpecIds rest
       | some (.jint n) => do
         let ids ← collectSpecIds rest
         pure (n :: ids)
       | some (.jstr s) =>
         match pyParseInt s with
         | some n => do
           let ids ← collectSpecIds rest
           pure (n :: ids)
         | none => .error "ValueError: invalid literal for int"
       | some _ => .error "TypeError: int() argument")
    | _ => collectSpecIds rest

/-- The hero-tree eligibility set, as `_parse_talent_tree` computes it
when the `playable_specializations` field is truthy (otherwise no
filtering happens, embedded as the empty list). -/
def heroEligibleIds (ht : JVal) : Except String (List Int) := do
  let ht_specs := pyGetD ht "playable_specializations" (.jarr [])
  if truthy ht_specs then do
    let sps ← pyIter ht_specs
    collectSpecIds sps
  else pure []

/-- The `hero_nodes_raw` local of the hero loop: the `hero_talent_nodes`
value when it is a list, `[]` otherwise. -/
def heroNodesRaw (ht : JVal) : List JVal :=
  match pyGetD ht "hero_talent_nodes" (.jarr []) with
  | .jarr l => l
  | _ => []

/-- The spec-filter decision of the hero loop: `ok true` means the
`continue` is taken (nonempty collected id set not containing the active
spec id). -/
def heroSkip (active_spec_id : Int) (ht : JVal) : Except String Bool :=
  let ht_specs := pyGetD ht "playable_specializations" (.jarr [])
  if truthy ht_specs && active_spec_id != 0 then do
    let sps ← pyIter ht_specs
    let ids ← collectSpecIds sps
    pure (decide (ids ≠ [] ∧ active_spec_id ∉ ids))
  else pure false

/-- The `id` value of the hero-tree dict
(`ht.get('id', 0) if isinstance(ht.get('id'), int) else 0`). -/
def heroIdOf (ht : JVal) : Int :=
  match pyGet ht "id" with
  | some (.jint n) => n
  | _ => 0

/-- The `name` value of the hero-tree dict
(`ht.get('name', '') if isinstance(...) else str(ht.get('name', ''))`). -/
def heroNameOf (ht : JVal) : String :=
  match pyGet ht "name" with
  | some (.jstr s) => s
  | _ => pyStr (pyGetD ht "name" (.jstr ""))

/-- One iteration of the hero-tree loop of `_parse_talent_tree`:
`ok none` when the element is skipped (not a dict, or filtered out by the
active spec id). -/
def processHeroTree (active_spec_id : Int) (ht : JVal) : Except String (Option HeroTree) :=
  match ht with
  | .jobj _ => do
    let skip ← heroSkip active_spec_id ht
    if skip then pure none
    else do
      let nodes ← parseDictNodes (heroNodesRaw ht)
      pure (some { id := heroIdOf ht, name := heroNameOf ht, nodes := nodes })
  | _ => pure none

def heroList (active_spec_id : Int) : List JVal → Except String (List HeroTree)
  | [] => .ok []
  | ht :: rest => do
    let h? ← processHeroTree active_spec_id ht
    let hs ← heroList active_spec_id rest
    pure (match h? with | some h => h :: hs | none => hs)

/-! ## The sort at the end of `_parse_talent_tree`

Python sorts the node lists by the raw `id` values with `<` on the keys.
Comparisons between an int key and a str key (or between keys that are
not orderable at all) raise `TypeError`; lists of at most one key never
compare anything.  This is embedded by a sortability check (conservative:
list-valued keys, which Python would compare elementwise, are rare enough
that they are also mapped to the error) followed by a total stable sort
that agrees with Python on all-int and all-str key lists. -/

def jrank : JVal → Nat
  | .jnull => 0
  | .jint _ => 1
  | .jstr _ => 2
  | .jarr _ => 3
  | .jobj _ => 4

def pyJValLe (a b : JVal) : Bool :=
  match a, b with
  | .jint m, .jint n => decide (m ≤ n)
  | .jstr s, .jstr t => decide (s ≤ t)
  | _, _ => decide (jrank a ≤ jrank b)

def nodeLe (a b : PNode) : Prop :=
  pyJValLe a.id b.id = true

instance : DecidableRel nodeLe :=
  fun a b => inferInstanceAs (Decidable (pyJValLe a.id b.id = true))

def keysSortable (ks : List JVal) : Bool :=
  ks.length ≤ 1 || ks.all isJInt || ks.all isJStr

def sortNodesPy (ns : List PNode) : Except String (List PNode) :=
  if keysSortable (ns.map (·.id)) then .ok (List.insertionSort nodeLe ns)
  else .error "TypeError: unorderable keys"

/-- The `hero_talent_trees` guard: only a list value is iterated, any
other shape is silently treated as no hero trees. -/
def heroTreesOf (active_spec_id : Int) (v : JVal) : Except String (List HeroTree) :=
  match v with
  | .jarr hts => heroList active_spec_id hts
  | _ => pure []

/-- `_parse_talent_tree(raw, active_spec_id)` from engine.py.  The absent
`active_spec_id=None` default is embedded as `0` (both are falsy, which is
all the code tests). -/
def parse_talent_tree (raw : JVal) (active_spec_id : Int) : Except String PGraph :=
  match raw with
  | .jobj _ => do
    let classItems ← pyIter (pyGetD raw "class_talent_nodes" (.jarr []))
    let class_nodes ← parseDictNodes classItems
    let specItems ← pyIter (pyGetD raw "spec_talent_nodes" (.jarr []))
    let spec_nodes ← parseDictNodes specItems
    let hero_trees ← heroTreesOf active_spec_id (pyGetD raw "hero_talent_trees" (.jarr []))
    let class_sorted ← sortNodesPy class_nodes
    let spec_sorted ← sortNodesPy spec_nodes
    pure { class_nodes := class_sorted, spec_nodes := spec_sorted, hero_trees := hero_trees }
  | _ => .error "AttributeError: get"

/-! ## Tree-id extraction (the Resolver step of
`_fetch_talent_tree_from_blizzard`, engine.py lines 393-413) -/

/-- `int(href.split('/talent-tree/')[1].split('/')[0])` guarded by the
containment check; `none` embeds both a failed containment test and the
swallowed `ValueError` of `int(...)`. -/
def hrefSegmentInt (s : String) : Option Int :=
  match pySplit s.toList "/talent-tree/".toList with
  | _ :: p1 :: _ => pyParseInt (chunkToString ((pySplit p1 "/".toList).headD []))
  | _ => none

/-- The href-parsing step applied to the computed `tree_href` value:
`ok (some n)` when `int(...)` succeeded, `ok none` when the token is not
present or parsing failed (the code swallows that), and an error when the
Python `in` / `.split` operations themselves raise on a non-string. -/
def hrefParse : JVal → Except String (Option Int)
  | .jstr s => .ok (hrefSegmentInt s)
  | .jarr xs =>
    if (JVal.jstr "/talent-tree/") ∈ xs then .error "AttributeError: split"
    else .ok none
  | .jobj fs =>
    if fs.any (fun f => f.1 = "/talent-tree/") then .error "AttributeError: split"
    else .ok none
  | _ => .error "TypeError: argument of type is not a container"

/-- The `tree_href` value computed from the reference dict: the `href`
of a dict-shaped `key`, a string `key` itself, the empty string
otherwise. -/
def treeHrefOf (ref : JVal) : JVal :=
  match pyGet ref "key" with
  | some (.jobj gs) => pyGetD (.jobj gs) "href" (.jstr "")
  | some (.jstr s) => .jstr s
  | _ => .jstr ""

/-- The tree-id extraction of `_fetch_talent_tree_from_blizzard`: a bare
int wins; for a dict the href parse is tried and, when it yields nothing
truthy, the raw `id` value (of any type) is used; a falsy final value
raises `ValueError`. -/
def extract_tree_id (ref : JVal) : Except String JVal := do
  let tid : JVal ←
    match ref with
    | .jint n => pure (.jint n)
    | .jobj _ => do
      let parsed ← hrefParse (treeHrefOf ref)
      let t1 : JVal := match parsed with | some n => .jint n | none => .jnull
      if truthy t1 then pure t1 else pure (pyGetD ref "id" .jnull)
    | _ => pure .jnull
  if truthy tid then pure tid else throw "ValueError: could not extract tree id"

/-- First claimed encoding: a bare integer. -/
def encBare (ref : JVal) : Option Int :=
  match ref with
  | .jint n => some n
  | _ => none

/-- Second claimed encoding: the integer segment following the
`/talent-tree/` token of the navigable reference string. -/
def encHref (ref : JVal) : Option Int :=
  match ref with
  | .jobj _ =>
    (match treeHrefOf ref with
     | .jstr s => hrefSegmentInt s
     | _ => none)
  | _ => none

/-- Third claimed encoding: a direct integer id field. -/
def encId (ref : JVal) : Option Int :=
  match ref with
  | .jobj _ => (match pyGet ref "id" with | some (.jint n) => some n | _ => none)
  | _ => none

/-- The extraction rule exactly as the claim words it: the three
encodings tried in order, and the first one yielding an integer wins. -/
def specFirstIntEncoding (ref : JVal) : Option Int :=
  encBare ref <|> encHref ref <|> encId ref

def nzInt : Option Int → Option Int :=
  fun o => o.bind fun n => if n = 0 then none else some n

/-- The amended extraction rule: the first encoding yielding a nonzero
integer wins. -/
def specFirstNonzeroIntEncoding (ref : JVal) : Option Int :=
  nzInt (encBare ref) <|> nzInt (encHref ref) <|> nzInt (encId ref)

/-! ## Icon enrichment (`_attach_spell_icons`)

The network is abstracted as an oracle `Int → Option JVal`: `some v`
means the media lookup returned asset value `v` for the spell id;
`none` means the request failed (non-success status, timeout or
exception — all swallowed by `_fetch_one_icon`). -/

/-- The spell ids one entry contributes to `all_spell_ids`
(`if sid and isinstance(sid, int)`). -/
def entrySpellIdInts (e : PEntry) : List Int :=
  match e.spell_id with
  | .jint n => if n != 0 then [n] else []
  | _ => []

def nodeEntriesMap (f : PEntry → PEntry) (n : PNode) : PNode :=
  { n with entries := n.entries.map f }

/-- All entries of the graph in the order `_attach_spell_icons` visits
them: class nodes, then spec nodes, then hero-tree nodes. -/
def graphEntries (g : PGraph) : List PEntry :=
  (g.class_nodes.map (·.entries)).flatten ++ (g.spec_nodes.map (·.entries)).flatten ++
    ((g.hero_trees.map fun h => (h.nodes.map (·.entries)).flatten).flatten)

def graphMapEntries (f : PEntry → PEntry) (g : PGraph) : PGraph :=
  { class_nodes := g.class_nodes.map (nodeEntriesMap f)
  , spec_nodes := g.spec_nodes.map (nodeEntriesMap f)
  , hero_trees := g.hero_trees.map fun h => { h with nodes := h.nodes.map (nodeEntriesMap f) } }

/-- The `all_spell_ids` set, embedded as a list with membership (the code
uses a Python set only for membership and deduplicated fan-out). -/
def allSpellIds (g : PGraph) : List Int :=
  ((graphEntries g).map entrySpellIdInts).flatten

/-- The value `icon_map` would hold for a spell id: the oracle answer,
kept only when truthy (`if url: icon_map[sid] = url`). -/
def resolveIcon (oracle : Int → Option JVal) (sid : Int) : Option JVal :=
  match oracle sid with
  | some u => if truthy u then some u else none
  | none => none

/-- The write-back loop body: `if sid and sid in icon_map:` — only truthy
int spell ids can be keys of the int-keyed `icon_map`. -/
def attachEntry (ids : List Int) (oracle : Int → Option JVal) (e : PEntry) : PEntry :=
  match e.spell_id with
  | .jint n =>
    if n != 0 then
      if n ∈ ids then
        match resolveIcon oracle n with
        | some u => { e with icon_url := some u }
        | none => e
      else e
    else e
  | _ => e

/-- `_attach_spell_icons(parsed, region, token)`: collect distinct nonzero
int spell ids, resolve them through the oracle, write resolved urls back;
an empty id set short-circuits (`if not all_spell_ids: return`). -/
def attach_spell_icons (oracle : Int → Option JVal) (g : PGraph) : PGraph :=
  let ids := allSpellIds g
  if ids.isEmpty then g
  else graphMapEntries (attachEntry ids oracle) g

/-! ## The client-side cache / serve decisions (engine.py `main`,
`FETCH_TALENT_TREE` branch) -/

inductive FetchOutcome where
  | served (g : PGraph)
  | errorOut
deriving DecidableEq

/-- `if tree and tree.get('class_nodes'):` — the parsed tree dict itself is
always truthy (it always has its three keys), so only the class-node list
matters. -/
def treeStoreCond (g : PGraph) : Bool :=
  !g.class_nodes.isEmpty

/-- `if cached.get('class_nodes') and cached.get('spec_nodes'):` — the
cache-hit validity check. -/
def cacheHitCond (g : PGraph) : Bool :=
  !g.class_nodes.isEmpty && !g.spec_nodes.isEmpty

/-- The fetch-and-store tail of the `FETCH_TALENT_TREE` handler: on an
accepted tree the cache entry is overwritten and the tree served;
otherwise a `talent_tree_error` is emitted and the cache is untouched. -/
def fetchCommand (cache : Option PGraph) (fetchResult : Option PGraph) :
    FetchOutcome × Option PGraph :=
  match fetchResult with
  | some t => if treeStoreCond t then (.served t, some t) else (.errorOut, cache)
  | none => (.errorOut, cache)

/-- The whole `FETCH_TALENT_TREE` handler: a structurally valid cache
entry is served directly, anything else falls through to the fetch. -/
def talentTreeRequest (cache : Option PGraph) (fetchResult : Option PGraph) :
    FetchOutcome × Option PGraph :=
  match cache with
  | some c => if cacheHitCond c then (.served c, some c) else fetchCommand (some c) fetchResult
  | none => fetchCommand none fetchResult

/-! ## The on-disk write of the cache entry

`os.makedirs(...); open(cache_file, 'w'); json.dump(tree, f)` — the open
with mode `w` truncates the published path and `json.dump` streams the
serialization into it in pieces.  File contents are modelled as the list
of chunks written so far. -/

inductive FsOp where
  | truncate (path : String)
  | write (path : String) (chunk : String)
  | rename (src dst : String)
deriving DecidableEq

def talentCachePath (classSlug specSlug : String) : String :=
  "talent_tree_cache/" ++ classSlug ++ "_" ++ specSlug ++ ".json"

/-- The operation sequence `Store` performs, as written: truncate the
published path, then stream every chunk of the serialization into it. -/
def storeTalentTreeOps (classSlug specSlug : String) (chunks : List String) : List FsOp :=
  .truncate (talentCachePath classSlug specSlug)
    :: chunks.map (.write (talentCachePath classSlug specSlug))

def applyFsOp (fs : String → Option (List String)) : FsOp → (String → Option (List String))
  | .truncate q => fun p => if p = q then some [] else fs p
  | .write q c => fun p => if p = q then some ((fs q).getD [] ++ [c]) else fs p
  | .rename a b => fun p => if p = b then fs a else if p = a then none else fs p

def runFs (fs : String → Option (List String)) : List FsOp → (String → Option (List String))
  | [] => fs
  | op :: rest => runFs (applyFsOp fs op) rest

def opWritesPath : FsOp → String → Bool
  | .truncate q, p => q = p
  | .write q _, p => q = p
  | .rename _ _, _ => false

/-- The discipline the claim describes: the new content is never written
to the published path itself (it would be published afterwards by a
rename). -/
def writeThenPublish (ops : List FsOp) (p : String) : Prop :=
  ∀ op ∈ ops, opWritesPath op p = false

/-! ## Helper lemmas -/

theorem exceptBindOk {α β : Type} {x : Except String α} {f : α → Except String β} {b : β}
    (h : (x >>= f) = .ok b) : ∃ a, x = .ok a ∧ f a = .ok b := by
  cases x with
  | ok a => exact ⟨a, rfl, h⟩
  | error e => simp [Bind.bind, Except.bind] at h

theorem sortNodesPy_ok {ns ns2 : List PNode} (h : sortNodesPy ns = .ok ns2) :
    ns2 = List.insertionSort nodeLe ns := by
  unfold sortNodesPy at h
  split at h
  · injection h with h
    exact h.symm
  · simp at h

/-! ## Concrete sample values used by witnesses and counterexamples -/

def sampleNode : PNode :=
  ⟨.jint 1, .jint 0, .jint 0, .jint 0, .jint 0, .jstr "ACTIVE", 1, [], []⟩

def emptyRawNodeParsed : PNode :=
  ⟨.jint 0, .jint 0, .jint 0, .jint 0, .jint 0, .jstr "ACTIVE", 1, [], []⟩

def sampleClassOnlyGraph : PGraph :=
  ⟨[sampleNode], [], []⟩

def specOnlyPayload : JVal :=
  .jobj [("spec_talent_nodes", .jarr [.jobj []])]

def specOnlyGraph : PGraph :=
  ⟨[], [emptyRawNodeParsed], []⟩

/-! ## Claim C10 -/

/-- Claim C10: a fetched graph with nonempty `class_nodes` and empty
`spec_nodes` passes the store condition (which checks only
`class_nodes`), so it is written to the disk cache and served, yet it can
never satisfy the cache-hit condition (which requires both lists
nonempty), so every later request treats the entry as a miss and goes
through the full fetch path again. -/
theorem class_only_graph_stored_never_served (g : PGraph) (cache fr : Option PGraph)
    (hc : g.class_nodes ≠ []) (hs : g.spec_nodes = []) :
    (fetchCommand cache (some g)).1 = .served g ∧
    (fetchCommand cache (some g)).2 = some g ∧
    cacheHitCond g = false ∧
    talentTreeRequest (some g) fr = fetchCommand (some g) fr := by
  have hsc : treeStoreCond g = true := by
    simp [treeStoreCond, List.isEmpty_iff, hc]
  have hhc : cacheHitCond g = false := by
    simp [cacheHitCond, hs]
  refine ⟨?_, ?_, hhc, ?_⟩
  · simp [fetchCommand, hsc]
  · simp [fetchCommand, hsc]
  · simp [talentTreeRequest, hhc]

theorem class_only_graph_stored_never_served_witness :
    (fetchCommand none (some sampleClassOnlyGraph)).1 = .served sampleClassOnlyGraph ∧
    (fetchCommand none (some sampleClassOnlyGraph)).2 = some sampleClassOnlyGraph ∧
    cacheHitCond sampleClassOnlyGraph = false ∧
    talentTreeRequest (some sampleClassOnlyGraph) none =
      fetchCommand (some sampleClassOnlyGraph) none :=
  class_only_graph_stored_never_served sampleClassOnlyGraph none none
    (by simp [sampleClassOnlyGraph]) rfl

/-! ## Claim C3 -/

/-- Claim C3 counterexample: a payload whose `spec_talent_nodes` list is
nonempty but whose `class_talent_nodes` list is empty normalizes fine,
yet the pipeline rejects it (`if tree and tree.get('class_nodes')` checks
only the class list), contradicting the claim that normalization succeeds
whenever at least one of the two collections is nonempty. -/
theorem spec_only_payload_rejected :
    parse_talent_tree specOnlyPayload 786 = .ok specOnlyGraph ∧
    specOnlyGraph.spec_nodes ≠ [] ∧
    specOnlyGraph.class_nodes = [] ∧
    (fetchCommand none (some specOnlyGraph)).1 = .errorOut := by
  refine ⟨rfl, by simp [specOnlyGraph], rfl, rfl⟩

/-- Claim C3 (amended): there is no `EmptyResult` check in normalization —
`_parse_talent_tree` never fails on emptiness; the pipeline instead
rejects a fetched graph exactly when its `class_nodes` list is empty,
regardless of `spec_nodes`, and so an all-empty payload is surfaced as a
failure while a spec-only payload is rejected too. -/
theorem fetch_accepts_iff_class_nodes_nonempty (raw : JVal) (sid : Int) (g : PGraph)
    (_h : parse_talent_tree raw sid = .ok g) :
    ((fetchCommand none (some g)).1 = .served g ↔ g.class_nodes ≠ []) ∧
    (g.class_nodes = [] → (fetchCommand none (some g)).1 = .errorOut) := by
  constructor
  · constructor
    · intro hserve
      intro hcl
      have hsc : treeStoreCond g = false := by simp [treeStoreCond, hcl]
      simp [fetchCommand, hsc] at hserve
    · intro hcl
      have hsc : treeStoreCond g = true := by simp [treeStoreCond, List.isEmpty_iff, hcl]
      simp [fetchCommand, hsc]
  · intro hcl
    have hsc : treeStoreCond g = false := by simp [treeStoreCond, hcl]
    simp [fetchCommand, hsc]

theorem fetch_accepts_iff_class_nodes_nonempty_witness :
    ((fetchCommand none (some specOnlyGraph)).1 = .served specOnlyGraph ↔
      specOnlyGraph.class_nodes ≠ []) ∧
    (specOnlyGraph.class_nodes = [] → (fetchCommand none (some specOnlyGraph)).1 = .errorOut) :=
  fetch_accepts_iff_class_nodes_nonempty specOnlyPayload 786 specOnlyGraph rfl

/-! ## Claim C8 -/

theorem runFs_writes (p : String) (cs : List String) :
    ∀ (fs : String → Option (List String)) (acc : List String), fs p = some acc →
      runFs fs (cs.map (.write p)) p = some (acc ++ cs) := by
  induction cs with
  | nil =>
    intro fs acc h
    simpa [runFs] using h
  | cons c cs ih =>
    intro fs acc h
    have hstep : applyFsOp fs (.write p c) p = some (acc ++ [c]) := by
      simp [applyFsOp, h]
    have := ih (applyFsOp fs (.write p c)) (acc ++ [c]) hstep
    simpa [runFs, List.append_assoc] using this

/-- Claim C8 (amended): `Store` does not write-then-publish — it truncates
the published cache path in place and streams the serialization directly
into it.  The final content is the full serialization and every single
operation targets the published path, so a reader interleaved after the
truncation observes a state that is neither the old entry nor the
complete new one. -/
theorem store_writes_in_place (cs ss : String) (chunks : List String)
    (fs : String → Option (List String)) :
    runFs fs (storeTalentTreeOps cs ss chunks) (talentCachePath cs ss) = some chunks ∧
    (∀ op ∈ storeTalentTreeOps cs ss chunks, opWritesPath op (talentCachePath cs ss) = true) ∧
    (fs (talentCachePath cs ss) ≠ some [] → chunks ≠ [] →
      ∃ i, runFs fs ((storeTalentTreeOps cs ss chunks).take i) (talentCachePath cs ss) ≠
             fs (talentCachePath cs ss) ∧
           runFs fs ((storeTalentTreeOps cs ss chunks).take i) (talentCachePath cs ss) ≠
             some chunks) := by
  refine ⟨?_, ?_, ?_⟩
  · have h0 : applyFsOp fs (.truncate (talentCachePath cs ss)) (talentCachePath cs ss) =
        some [] := by
      simp [applyFsOp]
    have := runFs_writes (talentCachePath cs ss) chunks
      (applyFsOp fs (.truncate (talentCachePath cs ss))) [] h0
    simpa [storeTalentTreeOps, runFs] using this
  · intro op hop
    simp [storeTalentTreeOps] at hop
    rcases hop with rfl | ⟨c, _, rfl⟩
    · simp [opWritesPath]
    · simp [opWritesPath]
  · intro hold hchunks
    refine ⟨1, ?_, ?_⟩
    · have : runFs fs ((storeTalentTreeOps cs ss chunks).take 1) (talentCachePath cs ss) =
          some [] := by
        simp [storeTalentTreeOps, runFs, applyFsOp]
      rw [this]
      exact fun hh => hold hh.symm
    · have : runFs fs ((storeTalentTreeOps cs ss chunks).take 1) (talentCachePath cs ss) =
          some [] := by
        simp [storeTalentTreeOps, runFs, applyFsOp]
      rw [this]
      intro hh
      injection hh with hh
      exact hchunks hh.symm

def fsOldSample : String → Option (List String) := fun p =>
  if p = talentCachePath "mage" "fire" then some ["OLDDATA"] else none

theorem store_writes_in_place_witness :
    runFs fsOldSample (storeTalentTreeOps "mage" "fire" ["chunkA", "chunkB"])
        (talentCachePath "mage" "fire") = some ["chunkA", "chunkB"] ∧
    (∀ op ∈ storeTalentTreeOps "mage" "fire" ["chunkA", "chunkB"],
      opWritesPath op (talentCachePath "mage" "fire") = true) ∧
    (fsOldSample (talentCachePath "mage" "fire") ≠ some [] →
      (["chunkA", "chunkB"] : List String) ≠ [] →
      ∃ i, runFs fsOldSample ((storeTalentTreeOps "mage" "fire" ["chunkA", "chunkB"]).take i)
             (talentCachePath "mage" "fire") ≠ fsOldSample (talentCachePath "mage" "fire") ∧
           runFs fsOldSample ((storeTalentTreeOps "mage" "fire" ["chunkA", "chunkB"]).take i)
             (talentCachePath "mage" "fire") ≠ some ["chunkA", "chunkB"]) :=
  store_writes_in_place "mage" "fire" ["chunkA", "chunkB"] fsOldSample

/-- Claim C8 counterexample: the stored operation sequence truncates the
published path itself as its first step (no write happens at any other
location), so it is not write-then-publish, and after two operations a
concurrent reader of the published path sees `["chunkA"]` — neither the
old entry nor the complete new serialization. -/
theorem store_not_write_then_publish :
    ¬ writeThenPublish (storeTalentTreeOps "mage" "fire" ["chunkA", "chunkB"])
        (talentCachePath "mage" "fire") ∧
    runFs fsOldSample ((storeTalentTreeOps "mage" "fire" ["chunkA", "chunkB"]).take 2)
        (talentCachePath "mage" "fire") = some ["chunkA"] ∧
    some ["chunkA"] ≠ fsOldSample (talentCachePath "mage" "fire") ∧
    (["chunkA"] : List String) ≠ ["chunkA", "chunkB"] := by
  refine ⟨?_, rfl, by simp [fsOldSample], by simp⟩
  intro hall
  have := hall (.truncate (talentCachePath "mage" "fire")) (by simp [storeTalentTreeOps])
  simp [opWritesPath] at this

/-! ## Inversion lemmas for `parse_node` -/

theorem parse_node_ok_inv {v : JVal} {n : PNode} (h : parse_node v = .ok n) :
    ∃ deps etm,
      pyIter (pyGetD v "locked_by" (.jarr [])) = .ok deps ∧
      parseRanks (nodeTypeOf v) (pyGetD v "ranks" (.jarr [])) = .ok etm ∧
      n = { id := pyGetD v "id" (.jint 0)
          , row := pyGetD v "display_row" (.jint 0)
          , col := pyGetD v "display_col" (.jint 0)
          , pos_x := pyGetD v "raw_position_x" (.jint 0)
          , pos_y := pyGetD v "raw_position_y" (.jint 0)
          , type := etm.1
          , max_ranks := etm.2.1
          , entries := etm.2.2
          , locked_by := deps.filterMap lockedByElem } := by
  cases v with
  | jobj fs =>
    unfold parse_node at h
    obtain ⟨deps, hdeps, h⟩ := exceptBindOk h
    obtain ⟨etm, hetm, h⟩ := exceptBindOk h
    refine ⟨deps, etm, hdeps, hetm, ?_⟩
    simp only [pure, Except.pure, Except.ok.injEq] at h
    exact h.symm
  | jnull => simp [parse_node] at h
  | jint m => simp [parse_node] at h
  | jstr s => simp [parse_node] at h
  | jarr xs => simp [parse_node] at h

theorem length_filterMap_isJObj {α : Type} (f : JVal → Option α)
    (hf : ∀ v, (f v).isSome = isJObj v) (l : List JVal) :
    (l.filterMap f).length = (l.filter isJObj).length := by
  induction l with
  | nil => rfl
  | cons x xs ih =>
    have hx := hf x
    cases hfx : f x with
    | some a =>
      rw [hfx] at hx
      simp [List.filterMap_cons, hfx, List.filter_cons, ← hx, ih]
    | none =>
      rw [hfx] at hx
      simp [List.filterMap_cons, hfx, List.filter_cons, ← hx, ih]

theorem choiceEntry_isSome (v : JVal) : (choiceEntry v).isSome = isJObj v := by
  cases v <;> rfl

theorem rankEntry_isSome (v : JVal) : (rankEntry v).isSome = isJObj v := by
  cases v <;> rfl

/-! ## Claim C9 -/

def pnLockedBy : Except String PNode → Option (List JVal)
  | .ok n => some n.locked_by
  | .error _ => none

/-- A raw `locked_by` element whose normalization yields an integer: ints
themselves, dicts whose `id` field is an int or absent (non-int and
non-dict elements are dropped anyway). -/
def lockedByWellTyped : JVal → Bool
  | .jobj fs =>
    (match pyLookup fs "id" with
     | none => true
     | some (.jint _) => true
     | some _ => false)
  | _ => true

theorem lockedBy_all_int {deps : List JVal}
    (hw : ∀ d ∈ deps, lockedByWellTyped d = true) :
    (deps.filterMap lockedByElem).all isJInt = true := by
  induction deps with
  | nil => rfl
  | cons d rest ih =>
    have hd := hw d (by simp)
    have hrest := ih fun x hx => hw x (by simp [hx])
    cases d with
    | jint m => simp [List.filterMap_cons, lockedByElem, List.all_cons, hrest, isJInt]
    | jobj fs2 =>
      simp only [lockedByWellTyped] at hd
      cases hid : pyLookup fs2 "id" with
      | none =>
        simp [List.filterMap_cons, lockedByElem, pyGetD, pyGet, hid, isJInt, hrest]
      | some w =>
        rw [hid] at hd
        cases w with
        | jint m =>
          simp [List.filterMap_cons, lockedByElem, pyGetD, pyGet, hid, isJInt, hrest]
        | jnull => simp at hd
        | jstr s => simp at hd
        | jarr xs => simp at hd
        | jobj gs => simp at hd
    | jnull => simp [List.filterMap_cons, lockedByElem, hrest]
    | jstr s => simp [List.filterMap_cons, lockedByElem, hrest]
    | jarr xs => simp [List.filterMap_cons, lockedByElem, hrest]

/-- Claim C9 (amended): `locked_by = [123]` and `locked_by = [{id: 123}]`
both normalize to `[123]` and an omitted field normalizes to the empty
collection; the elements of `lockedBy` are all integers provided every
dict element carries an integer (or absent, defaulted to `0`) id — a
non-integer id value is passed through as-is, so `lockedBy` is not a set
of integers unconditionally. -/
theorem locked_by_normalization :
    pnLockedBy (parse_node (.jobj [("locked_by", .jarr [.jint 123])])) = some [.jint 123] ∧
    pnLockedBy (parse_node (.jobj [("locked_by", .jarr [.jobj [("id", .jint 123)]])])) =
      some [.jint 123] ∧
    pnLockedBy (parse_node (.jobj [])) = some [] ∧
    (∀ node deps n, pyGetD node "locked_by" (.jarr []) = .jarr deps →
      (∀ d ∈ deps, lockedByWellTyped d = true) →
      parse_node node = .ok n → n.locked_by.all isJInt = true) := by
  refine ⟨rfl, rfl, rfl, ?_⟩
  intro node deps n hlb hw h
  obtain ⟨deps2, etm, hdeps, _, hn⟩ := parse_node_ok_inv h
  rw [hlb] at hdeps
  simp only [pyIter, Except.ok.injEq] at hdeps
  subst hdeps
  rw [hn]
  exact lockedBy_all_int hw

def parsedLkNode : PNode :=
  ⟨.jint 0, .jint 0, .jint 0, .jint 0, .jint 0, .jstr "ACTIVE", 1, [], [.jint 5, .jint 7]⟩

theorem locked_by_normalization_witness :
    (parsedLkNode.locked_by.all isJInt) = true :=
  locked_by_normalization.2.2.2 (.jobj [("locked_by", .jarr [.jint 5, .jobj [("id", .jint 7)]])])
    [.jint 5, .jobj [("id", .jint 7)]] parsedLkNode rfl (by decide) rfl

/-- Claim C9 counterexample: a raw node whose `locked_by` holds a dict
with a string id normalizes to a `lockedBy` containing that string — not
a set of integer node ids. -/
theorem locked_by_nonint_passthrough :
    pnLockedBy (parse_node (.jobj [("locked_by", .jarr [.jobj [("id", .jstr "x")]])])) =
      some [.jstr "x"] ∧
    (([JVal.jstr "x"] : List JVal).all isJInt) = false :=
  ⟨rfl, rfl⟩

/-! ## Claim C4 -/

def pnTypeOf : Except String PNode → Option JVal
  | .ok n => some n.type
  | .error _ => none

def pnMaxRanks : Except String PNode → Option Nat
  | .ok n => some n.max_ranks
  | .error _ => none

def pnEntriesLen : Except String PNode → Option Nat
  | .ok n => some n.entries.length
  | .error _ => none

/-- Claim C4 (amended): when the first rank structure is a dict carrying a
nonempty `choice_of_tooltips` list, normalization yields one node of kind
`CHOICE` with `maxRanks = 1` and one entry per dict-shaped alternative
(non-dict alternatives are skipped); any other node whose `ranks` field is
a list gets one entry per dict-shaped rank element. -/
theorem choice_collapse (node : JVal) :
    (∀ r0 rest cts n,
      pyGetD node "ranks" (.jarr []) = .jarr (r0 :: rest) →
      isJObj r0 = true →
      pyGetD r0 "choice_of_tooltips" .jnull = .jarr cts →
      cts ≠ [] →
      parse_node node = .ok n →
      n.type = .jstr "CHOICE" ∧ n.max_ranks = 1 ∧
        n.entries.length = (cts.filter isJObj).length) ∧
    (∀ rs n,
      pyGetD node "ranks" (.jarr []) = .jarr rs →
      choiceCond (.jarr rs) = .ok none →
      parse_node node = .ok n →
      n.entries.length = (rs.filter isJObj).length) := by
  constructor
  · intro r0 rest cts n hranks hr0 hcot hcts h
    obtain ⟨deps, etm, _, hetm, hn⟩ := parse_node_ok_inv h
    rw [hranks] at hetm
    have hcc : choiceCond (.jarr (r0 :: rest)) = .ok (some (.jarr cts)) := by
      cases r0 with
      | jobj gs =>
        simp only [choiceCond, truthy, List.isEmpty_cons, Bool.not_false, if_true]
        rw [hcot]
        simp [truthy, List.isEmpty_iff, hcts]
      | jnull => simp [isJObj] at hr0
      | jint m => simp [isJObj] at hr0
      | jstr s => simp [isJObj] at hr0
      | jarr xs => simp [isJObj] at hr0
    rw [parseRanks] at hetm
    simp only [pyLen, hcc, pyIter, Bind.bind, Except.bind, pure, Except.pure,
      Except.ok.injEq] at hetm
    rw [hn, ← hetm]
    refine ⟨rfl, rfl, ?_⟩
    exact length_filterMap_isJObj choiceEntry choiceEntry_isSome cts
  · intro rs n hranks hcc h
    obtain ⟨deps, etm, _, hetm, hn⟩ := parse_node_ok_inv h
    rw [hranks, parseRanks] at hetm
    simp only [pyLen, hcc, pyIter, Bind.bind, Except.bind, pure, Except.pure,
      Except.ok.injEq] at hetm
    rw [hn, ← hetm]
    exact length_filterMap_isJObj rankEntry rankEntry_isSome rs

def choiceGoodNode : JVal :=
  .jobj [("ranks", .jarr [.jobj [("choice_of_tooltips", .jarr [.jobj [], .jobj []])]])]

def qEntry : PEntry :=
  ⟨.jstr "?", .jint 0, .jstr "", .jstr "", .jstr "", .jstr "", none⟩

def choiceGoodParsed : PNode :=
  ⟨.jint 0, .jint 0, .jint 0, .jint 0, .jint 0, .jstr "CHOICE", 1, [qEntry, qEntry], []⟩

theorem choice_collapse_witness :
    choiceGoodParsed.type = .jstr "CHOICE" ∧ choiceGoodParsed.max_ranks = 1 ∧
      choiceGoodParsed.entries.length =
        (([JVal.jobj [], .jobj []] : List JVal).filter isJObj).length :=
  (choice_collapse choiceGoodNode).1 (.jobj [("choice_of_tooltips", .jarr [.jobj [], .jobj []])])
    [] [.jobj [], .jobj []] choiceGoodParsed rfl rfl rfl (by simp) rfl

def choiceBadNode : JVal :=
  .jobj [("ranks", .jarr [.jobj [("choice_of_tooltips", .jarr [.jint 5, .jobj []])]])]

/-- Claim C4 counterexample: a choice node with two alternatives, one of
which is not a dict, collapses to a `CHOICE` node with only one entry —
not one entry per alternative. -/
theorem choice_skips_nondict_alternative :
    pnTypeOf (parse_node choiceBadNode) = some (.jstr "CHOICE") ∧
    pnMaxRanks (parse_node choiceBadNode) = some 1 ∧
    pnEntriesLen (parse_node choiceBadNode) = some 1 ∧
    ([JVal.jint 5, .jobj []] : List JVal).length = 2 :=
  ⟨rfl, rfl, rfl, rfl⟩

/-! ## Claim C2 -/

/-- Values the Python `for` loop can consume without raising. -/
def iterSafe : JVal → Bool
  | .jint _ => false
  | .jnull => false
  | _ => true

/-- A `ranks` value `_parse_node` can process without raising: not an
int or `None` (whose `len` raises), not a nonempty dict (whose `[0]`
subscript raises `KeyError`), and — when the choice branch is taken — a
`choice_of_tooltips` value the loop can iterate. -/
def ranksSafe : JVal → Bool
  | .jint _ => false
  | .jnull => false
  | .jobj fs => fs.isEmpty
  | .jarr (r0 :: _) =>
    (match r0 with
     | .jobj _ =>
       (if truthy (pyGetD r0 "choice_of_tooltips" .jnull)
        then iterSafe (pyGetD r0 "choice_of_tooltips" .jnull) else true)
     | _ => true)
  | _ => true

def nodeParseSafe (node : JVal) : Bool :=
  iterSafe (pyGetD node "locked_by" (.jarr [])) &&
    ranksSafe (pyGetD node "ranks" (.jarr []))

theorem pyIter_ok_of_iterSafe {v : JVal} (h : iterSafe v = true) :
    ∃ l, pyIter v = .ok l := by
  cases v with
  | jint m => simp [iterSafe] at h
  | jnull => simp [iterSafe] at h
  | jstr s => exact ⟨_, rfl⟩
  | jarr xs => exact ⟨_, rfl⟩
  | jobj fs => exact ⟨_, rfl⟩

theorem excOk_exists {α : Type} {x : Except String α} (h : excOk x = true) :
    ∃ a, x = .ok a := by
  cases x with
  | ok a => exact ⟨a, rfl⟩
  | error e => simp [excOk] at h

theorem parseRanks_ok_of_ranksSafe (nt : JVal) {rk : JVal} (h : ranksSafe rk = true) :
    excOk (parseRanks nt rk) = true := by
  cases rk with
  | jint m => simp [ranksSafe] at h
  | jnull => simp [ranksSafe] at h
  | jstr s =>
    simp [parseRanks, pyLen, choiceCond, ite_self, Bind.bind, Except.bind, pyIter,
      excOk, pure, Except.pure]
  | jobj fs =>
    simp only [ranksSafe, List.isEmpty_iff] at h
    subst h
    rfl
  | jarr xs =>
    cases xs with
    | nil => rfl
    | cons r0 rest =>
      cases r0 with
      | jobj gs =>
        simp only [ranksSafe] at h
        have houter : truthy (JVal.jarr (JVal.jobj gs :: rest)) = true := rfl
        by_cases hcot : truthy (pyGetD (.jobj gs) "choice_of_tooltips" .jnull) = true
        · rw [if_pos hcot] at h
          obtain ⟨l, hl⟩ := pyIter_ok_of_iterSafe h
          simp [parseRanks, pyLen, choiceCond, houter, hcot, Bind.bind, Except.bind, hl,
            excOk, pure, Except.pure]
        · simp [parseRanks, pyLen, choiceCond, houter, hcot, Bind.bind, Except.bind,
            pyIter, excOk, pure, Except.pure]
      | jnull => rfl
      | jint m => rfl
      | jstr s => rfl
      | jarr ys => rfl

/-- Claim C2 (amended): `_parse_node` returns a normalized node without
raising for every raw node dict whose `locked_by` value the loop can
iterate (not an int or `None`), whose `ranks` value tolerates `len` and
first-element access (not an int, `None`, or nonempty dict) and whose
truthy first-rank `choice_of_tooltips` is iterable; absent fields resolve
to the documented defaults `0`, `"ACTIVE"`, `maxRanks 1`, no entries and
no prerequisites. -/
theorem parse_node_no_raise :
    (∀ node, isJObj node = true → nodeParseSafe node = true →
      excOk (parse_node node) = true) ∧
    parse_node (.jobj []) =
      .ok ⟨.jint 0, .jint 0, .jint 0, .jint 0, .jint 0, .jstr "ACTIVE", 1, [], []⟩ := by
  refine ⟨?_, rfl⟩
  intro node hobj hsafe
  simp only [nodeParseSafe, Bool.and_eq_true] at hsafe
  obtain ⟨hlb, hrk⟩ := hsafe
  cases node with
  | jobj fs =>
    obtain ⟨deps, hdeps⟩ := pyIter_ok_of_iterSafe hlb
    obtain ⟨etm, hetm⟩ := excOk_exists (parseRanks_ok_of_ranksSafe (nodeTypeOf (.jobj fs)) hrk)
    simp [parse_node, hdeps, hetm, Bind.bind, Except.bind, pure, Except.pure, excOk]
  | jnull => simp [isJObj] at hobj
  | jint m => simp [isJObj] at hobj
  | jstr s => simp [isJObj] at hobj
  | jarr xs => simp [isJObj] at hobj

def malformedNode : JVal :=
  .jobj [("node_type", .jarr []), ("id", .jstr "x"), ("locked_by", .jstr "ab"),
         ("ranks", .jarr [.jint 3])]

theorem parse_node_no_raise_witness :
    excOk (parse_node malformedNode) = true :=
  parse_node_no_raise.1 malformedNode rfl rfl

/-- Claim C2 counterexample: a raw node dict whose `locked_by` field is
the integer `7` makes `_parse_node` raise a `TypeError` (Python iterates
`locked_by` unconditionally), so normalization does not tolerate every
malformed field. -/
theorem parse_node_raises_on_int_locked_by :
    isJObj (.jobj [("locked_by", .jint 7)]) = true ∧
    excOk (parse_node (.jobj [("locked_by", .jint 7)])) = false :=
  ⟨rfl, rfl⟩

/-! ## Claim C7 -/

theorem flatten_map_entries (f : PEntry → PEntry) (ns : List PNode) :
    ((ns.map (nodeEntriesMap f)).map (·.entries)).flatten =
      ((ns.map (·.entries)).flatten).map f := by
  rw [List.map_map, List.map_flatten, List.map_map]
  congr 1

theorem flatten_hero_entries (f : PEntry → PEntry) (hs : List HeroTree) :
    ((hs.map fun h => { h with nodes := h.nodes.map (nodeEntriesMap f) }).map
        (fun h => (h.nodes.map (·.entries)).flatten)).flatten =
      ((hs.map fun h => (h.nodes.map (·.entries)).flatten).flatten).map f := by
  rw [List.map_map, List.map_flatten, List.map_map]
  congr 1
  congr 1
  funext h
  exact flatten_map_entries f h.nodes

theorem graphEntries_mapEntries (f : PEntry → PEntry) (g : PGraph) :
    graphEntries (graphMapEntries f g) = (graphEntries g).map f := by
  simp only [graphEntries, graphMapEntries]
  rw [flatten_map_entries, flatten_map_entries, flatten_hero_entries]
  simp [List.map_append]

theorem mem_allSpellIds {g : PGraph} {e : PEntry} {n : Int}
    (he : e ∈ graphEntries g) (hn : e.spell_id = .jint n) (hnz : n ≠ 0) :
    n ∈ allSpellIds g := by
  apply List.mem_flatten.mpr
  refine ⟨entrySpellIdInts e, List.mem_map_of_mem _ he, ?_⟩
  simp [entrySpellIdInts, hn, hnz]

/-- Claim C7: enrichment is total over any oracle outcome and isolates
failures — every entry whose nonzero int spell id resolved (truthy url)
receives that `iconUrl`, every entry whose id failed to resolve is left
untouched, and when the distinct nonzero spell-id set is empty the graph
is returned unchanged. -/
theorem attach_icons_failure_isolated (oracle : Int → Option JVal) (g : PGraph) :
    (allSpellIds g = [] → attach_spell_icons oracle g = g) ∧
    (∀ (i : Nat) (e : PEntry), (graphEntries g)[i]? = some e →
      ∃ e2, (graphEntries (attach_spell_icons oracle g))[i]? = some e2 ∧
        (∀ n u, e.spell_id = .jint n → n ≠ 0 → oracle n = some u → truthy u = true →
          e2 = { e with icon_url := some u }) ∧
        (∀ n, e.spell_id = .jint n → n ≠ 0 → resolveIcon oracle n = none → e2 = e)) := by
  constructor
  · intro h
    simp [attach_spell_icons, h]
  · intro i e he
    by_cases hids : (allSpellIds g).isEmpty
    · rw [List.isEmpty_iff] at hids
      refine ⟨e, ?_, ?_, ?_⟩
      · simpa [attach_spell_icons, hids] using he
      · intro n u hn hnz _ _
        exact absurd (mem_allSpellIds (List.getElem?_mem he) hn hnz) (by simp [hids])
      · intro n hn hnz _
        rfl
    · have hatt : attach_spell_icons oracle g =
          graphMapEntries (attachEntry (allSpellIds g) oracle) g := by
        simp [attach_spell_icons, hids]
      refine ⟨attachEntry (allSpellIds g) oracle e, ?_, ?_, ?_⟩
      · rw [hatt, graphEntries_mapEntries, List.getElem?_map, he]
        rfl
      · intro n u hn hnz ho ht
        have hmem := mem_allSpellIds (List.getElem?_mem he) hn hnz
        simp [attachEntry, hn, hnz, hmem, resolveIcon, ho, ht]
      · intro n hn hnz hr
        simp [attachEntry, hn, hnz, hr]

def sampleEntryA : PEntry :=
  ⟨.jstr "A", .jint 1, .jstr "", .jstr "", .jstr "", .jstr "", none⟩

def sampleEntryB : PEntry :=
  ⟨.jstr "B", .jint 2, .jstr "", .jstr "", .jstr "", .jstr "", none⟩

def sampleIconGraph : PGraph :=
  ⟨[⟨.jint 1, .jint 0, .jint 0, .jint 0, .jint 0, .jstr "ACTIVE", 2,
      [sampleEntryA, sampleEntryB], []⟩], [], []⟩

/-- An oracle where spell id 1 resolves and spell id 2 fails. -/
def sampleOracle : Int → Option JVal :=
  fun n => if n = 1 then some (.jstr "URL") else none

theorem attach_icons_failure_isolated_witness :
    (graphEntries (attach_spell_icons sampleOracle sampleIconGraph))[0]? =
      some { sampleEntryA with icon_url := some (.jstr "URL") } ∧
    (graphEntries (attach_spell_icons sampleOracle sampleIconGraph))[1]? =
      some sampleEntryB := by
  obtain ⟨e2, he2, hok2, _⟩ :=
    (attach_icons_failure_isolated sampleOracle sampleIconGraph).2 0 sampleEntryA rfl
  obtain ⟨e3, he3, _, hfail3⟩ :=
    (attach_icons_failure_isolated sampleOracle sampleIconGraph).2 1 sampleEntryB rfl
  constructor
  · rw [he2, hok2 1 (.jstr "URL") rfl (by decide) rfl rfl]
  · rw [he3, hfail3 2 rfl (by decide) rfl]

/-! ## Claim C6 -/

theorem pyJValLe_total (a b : JVal) : pyJValLe a b = true ∨ pyJValLe b a = true := by
  cases a <;> cases b <;> simp [pyJValLe, jrank] <;> first | omega | exact le_total _ _

theorem pyJValLe_trans {a b c : JVal} (h1 : pyJValLe a b = true) (h2 : pyJValLe b c = true) :
    pyJValLe a c = true := by
  cases a <;> cases b <;> cases c <;>
    simp_all [pyJValLe, jrank] <;>
    first | omega | exact le_trans h1 h2

instance : IsTotal PNode nodeLe :=
  ⟨fun a b => pyJValLe_total a.id b.id⟩

instance : IsTrans PNode nodeLe :=
  ⟨fun _ _ _ h1 h2 => pyJValLe_trans h1 h2⟩

theorem parse_talent_tree_ok_inv {raw : JVal} {sid : Int} {g : PGraph}
    (h : parse_talent_tree raw sid = .ok g) :
    ∃ cls spc, g.class_nodes = List.insertionSort nodeLe cls ∧
      g.spec_nodes = List.insertionSort nodeLe spc := by
  cases raw with
  | jobj fs =>
    unfold parse_talent_tree at h
    obtain ⟨ci, hci, h⟩ := exceptBindOk h
    obtain ⟨cn, hcn, h⟩ := exceptBindOk h
    obtain ⟨si, hsi, h⟩ := exceptBindOk h
    obtain ⟨sn, hsn, h⟩ := exceptBindOk h
    obtain ⟨hts, hhts, h⟩ := exceptBindOk h
    obtain ⟨cs, hcs, h⟩ := exceptBindOk h
    obtain ⟨ss, hss, h⟩ := exceptBindOk h
    simp only [pure, Except.pure, Except.ok.injEq] at h
    refine ⟨cn, sn, ?_, ?_⟩
    · rw [← h]
      exact sortNodesPy_ok hcs
    · rw [← h]
      exact sortNodesPy_ok hss
  | jnull => simp [parse_talent_tree] at h
  | jint m => simp [parse_talent_tree] at h
  | jstr s => simp [parse_talent_tree] at h
  | jarr xs => simp [parse_talent_tree] at h

/-- The raw `id` value a dict node contributes to the normalized output
(`node.get('id', 0)`); non-dict elements are skipped by the node loops. -/
def rawNodeId : JVal → Option JVal
  | d@(.jobj _) => some (pyGetD d "id" (.jint 0))
  | _ => none

theorem parseDictNodes_ids {l : List JVal} {ns : List PNode} (h : parseDictNodes l = .ok ns) :
    ns.map (·.id) = l.filterMap rawNodeId := by
  induction l generalizing ns with
  | nil =>
    simp only [parseDictNodes, Except.ok.injEq] at h
    simp [← h]
  | cons x xs ih =>
    cases x with
    | jobj fs =>
      unfold parseDictNodes at h
      obtain ⟨n, hn, h⟩ := exceptBindOk h
      obtain ⟨rest, hrest, h⟩ := exceptBindOk h
      simp only [pure, Except.pure, Except.ok.injEq] at h
      obtain ⟨deps, etm, _, _, hnval⟩ := parse_node_ok_inv hn
      rw [← h]
      simp [List.filterMap_cons, rawNodeId, ih hrest, hnval]
    | jnull => simpa [parseDictNodes, List.filterMap_cons, rawNodeId] using ih h
    | jint m => simpa [parseDictNodes, List.filterMap_cons, rawNodeId] using ih h
    | jstr s => simpa [parseDictNodes, List.filterMap_cons, rawNodeId] using ih h
    | jarr ys => simpa [parseDictNodes, List.filterMap_cons, rawNodeId] using ih h

theorem processHeroTree_nodes {sid : Int} {ht : JVal} {h : HeroTree}
    (hp : processHeroTree sid ht = .ok (some h)) :
    h.nodes.map (·.id) = (heroNodesRaw ht).filterMap rawNodeId := by
  cases ht with
  | jobj fs =>
    unfold processHeroTree at hp
    obtain ⟨skip, hskip, hp⟩ := exceptBindOk hp
    cases skip with
    | true => simp [pure, Except.pure] at hp
    | false =>
      obtain ⟨nodes, hnodes, hp⟩ := exceptBindOk hp
      simp only [pure, Except.pure, Except.ok.injEq, Option.some.injEq] at hp
      rw [← hp]
      exact parseDictNodes_ids hnodes
  | jnull => simp [processHeroTree, pure, Except.pure] at hp
  | jint m => simp [processHeroTree, pure, Except.pure] at hp
  | jstr s => simp [processHeroTree, pure, Except.pure] at hp
  | jarr xs => simp [processHeroTree, pure, Except.pure] at hp

/-- Claim C6 (amended): after normalization the `classNodes` and
`specNodes` lists are sorted in the Python key order of their raw ids (in
particular non-decreasing by id when ids are integers) — but not
deduplicated, so uniqueness and strict ascent hold only when the raw ids
are distinct; the nodes of each hero tree keep exactly the raw payload
order (the dict-shaped elements, in order). -/
theorem nodes_sorted_hero_order_preserved :
    (∀ raw sid g, parse_talent_tree raw sid = .ok g →
      List.Sorted nodeLe g.class_nodes ∧ List.Sorted nodeLe g.spec_nodes) ∧
    (∀ sid ht h, processHeroTree sid ht = .ok (some h) →
      h.nodes.map (·.id) = (heroNodesRaw ht).filterMap rawNodeId) := by
  constructor
  · intro raw sid g h
    obtain ⟨cls, spc, hc, hs⟩ := parse_talent_tree_ok_inv h
    rw [hc, hs]
    exact ⟨List.sorted_insertionSort nodeLe cls, List.sorted_insertionSort nodeLe spc⟩
  · intro sid ht h hp
    exact processHeroTree_nodes hp

def idOnlyNode (n : Int) : PNode :=
  ⟨.jint n, .jint 0, .jint 0, .jint 0, .jint 0, .jstr "ACTIVE", 1, [], []⟩

def outOfOrderPayload : JVal :=
  .jobj [("class_talent_nodes", .jarr [.jobj [("id", .jint 2)], .jobj [("id", .jint 1)]])]

def outOfOrderGraph : PGraph :=
  ⟨[idOnlyNode 1, idOnlyNode 2], [], []⟩

theorem nodes_sorted_hero_order_preserved_witness :
    List.Sorted nodeLe outOfOrderGraph.class_nodes ∧
      List.Sorted nodeLe outOfOrderGraph.spec_nodes :=
  nodes_sorted_hero_order_preserved.1 outOfOrderPayload 786 outOfOrderGraph rfl

def dupIdPayload : JVal :=
  .jobj [("class_talent_nodes", .jarr [.jobj [("id", .jint 1)], .jobj [("id", .jint 1)]])]

/-- Claim C6 counterexample: two raw class nodes with the same id survive
normalization as two nodes with id `1`, so the `classNodes` ids are
neither unique nor strictly ascending. -/
theorem duplicate_ids_not_unique :
    parse_talent_tree dupIdPayload 786 = .ok ⟨[idOnlyNode 1, idOnlyNode 1], [], []⟩ ∧
    ¬ ((([idOnlyNode 1, idOnlyNode 1] : List PNode).map (·.id)).Pairwise (· ≠ ·)) :=
  ⟨rfl, by decide⟩

def heroPayload101 : JVal :=
  .jobj [("hero_talent_trees",
    .jarr [.jobj [("playable_specializations", .jarr [.jint 101, .jint 102])]])]

def heroPayloadNoElig : JVal :=
  .jobj [("hero_talent_trees", .jarr [.jobj []])]

/-! ## Claim C5 -/

theorem heroSkip_eq {sid : Int} {ht : JVal} {E : List Int} (hsid : sid ≠ 0)
    (hE : heroEligibleIds ht = .ok E) :
    heroSkip sid ht = .ok (decide (E ≠ [] ∧ sid ∉ E)) := by
  unfold heroSkip
  unfold heroEligibleIds at hE
  by_cases htr : truthy (pyGetD ht "playable_specializations" (.jarr [])) = true
  · rw [if_pos htr] at hE
    obtain ⟨sps, hsps, hE⟩ := exceptBindOk hE
    have hcond : (truthy (pyGetD ht "playable_specializations" (.jarr [])) &&
        (sid != 0)) = true := by
      simp [htr, hsid]
    rw [if_pos hcond]
    simp only [Bind.bind, Except.bind, hsps, hE, pure, Except.pure]
  · rw [if_neg htr] at hE
    simp only [pure, Except.pure, Except.ok.injEq] at hE
    have hcond : (truthy (pyGetD ht "playable_specializations" (.jarr [])) &&
        (sid != 0)) = false := by
      simp [Bool.not_eq_true] at htr
      simp [htr]
    simp only [hcond, Bool.false_eq_true, if_false]
    simp [← hE, pure, Except.pure]

/-- Claim C5: a hero tree is included unless its collected eligibility id
set is nonempty and does not contain the active spec id; in particular a
tree declaring eligible specs 101 and 102 is kept for spec 101 and
dropped for spec 999, and a tree with no declared eligibility list is
always kept.  (A falsy `active_spec_id` — `None` or `0` — disables the
filter by design; actual spec ids are nonzero.) -/
theorem hero_tree_filtering (sid : Int) (ht : JVal) (E : List Int)
    (hsid : sid ≠ 0) (hobj : isJObj ht = true) (hE : heroEligibleIds ht = .ok E) :
    ((E ≠ [] ∧ sid ∉ E) → processHeroTree sid ht = .ok none) ∧
    (¬(E ≠ [] ∧ sid ∉ E) → ∀ r, processHeroTree sid ht = .ok r → r ≠ none) ∧
    parse_talent_tree heroPayload101 101 = .ok ⟨[], [], [⟨0, "", []⟩]⟩ ∧
    parse_talent_tree heroPayload101 999 = .ok ⟨[], [], []⟩ ∧
    parse_talent_tree heroPayloadNoElig 999 = .ok ⟨[], [], [⟨0, "", []⟩]⟩ := by
  have hskip := heroSkip_eq hsid hE
  refine ⟨?_, ?_, rfl, rfl, rfl⟩
  · intro hcond
    cases ht with
    | jobj fs =>
      have hdec : decide (E ≠ [] ∧ sid ∉ E) = true := by
        exact decide_eq_true hcond
      rw [hdec] at hskip
      simp [processHeroTree, Bind.bind, Except.bind, hskip, pure, Except.pure]
    | jnull => simp [isJObj] at hobj
    | jint m => simp [isJObj] at hobj
    | jstr s => simp [isJObj] at hobj
    | jarr xs => simp [isJObj] at hobj
  · intro hcond r hp
    cases ht with
    | jobj fs =>
      have hdec : decide (E ≠ [] ∧ sid ∉ E) = false := by
        exact decide_eq_false hcond
      rw [hdec] at hskip
      unfold processHeroTree at hp
      obtain ⟨skip, hskip2, hp⟩ := exceptBindOk hp
      rw [hskip] at hskip2
      injection hskip2 with hskip2
      subst hskip2
      simp only [Bool.false_eq_true, if_false] at hp
      obtain ⟨nodes, _, hp⟩ := exceptBindOk hp
      simp only [pure, Except.pure, Except.ok.injEq] at hp
      rw [← hp]
      simp
    | jnull => simp [isJObj] at hobj
    | jint m => simp [isJObj] at hobj
    | jstr s => simp [isJObj] at hobj
    | jarr xs => simp [isJObj] at hobj

def heroTree101 : JVal :=
  .jobj [("playable_specializations", .jarr [.jint 101, .jint 102])]

theorem hero_tree_filtering_witness :
    processHeroTree 999 heroTree101 = .ok none :=
  (hero_tree_filtering 999 heroTree101 [101, 102] (by decide) rfl rfl).1 (by decide)

/-! ## Claim C1 -/

/-- The tail of the dict branch of the extraction, after the href parse
produced its optional integer. -/
def extractAfterParse (ref : JVal) (parsed : Option Int) : Except String JVal := do
  let t1 : JVal := match parsed with | some n => .jint n | none => .jnull
  let tid ← if truthy t1 then pure t1 else pure (pyGetD ref "id" .jnull)
  if truthy tid then pure tid else throw "ValueError: could not extract tree id"

theorem extract_tree_id_obj (fs : List (String × JVal)) :
    extract_tree_id (.jobj fs) =
      hrefParse (treeHrefOf (.jobj fs)) >>= extractAfterParse (.jobj fs) := by
  unfold extract_tree_id extractAfterParse
  cases h : hrefParse (treeHrefOf (.jobj fs)) with
  | ok parsed =>
    simp only [Bind.bind, Except.bind, h]
  | error e =>
    simp only [Bind.bind, Except.bind, h]

theorem extractAfterParse_some_nz {ref : JVal} {k : Int} (hk : k ≠ 0) :
    extractAfterParse ref (some k) = .ok (.jint k) := by
  simp [extractAfterParse, truthy, hk, Bind.bind, Except.bind, pure, Except.pure]

theorem extractAfterParse_fallback {ref : JVal} {n : Int}
    (hid : pyGet ref "id" = some (.jint n)) (hn : n ≠ 0) :
    extractAfterParse ref none = .ok (.jint n) ∧
      extractAfterParse ref (some 0) = .ok (.jint n) := by
  constructor <;>
    simp [extractAfterParse, truthy, pyGetD, hid, hn, Bind.bind, Except.bind, pure,
      Except.pure]

theorem nzInt_eq_some {o : Option Int} {k : Int} (h : nzInt o = some k) :
    o = some k ∧ k ≠ 0 := by
  cases o with
  | none => simp [nzInt] at h
  | some m =>
    simp only [nzInt, Option.some_bind] at h
    by_cases hm : m = 0
    · rw [hm] at h
      simp at h
    · rw [if_neg hm] at h
      injection h with h
      subst h
      exact ⟨rfl, hm⟩

theorem encHref_eq_of_href_str {fs : List (String × JVal)} {s : String}
    (hw : treeHrefOf (.jobj fs) = .jstr s) :
    encHref (.jobj fs) = hrefSegmentInt s := by
  unfold encHref
  rw [hw]

theorem specNonzero_obj_cases {fs : List (String × JVal)} {n : Int}
    (henc : specFirstNonzeroIntEncoding (.jobj fs) = some n) :
    (∃ s, treeHrefOf (.jobj fs) = .jstr s ∧ hrefSegmentInt s = some n ∧ n ≠ 0) ∨
    (nzInt (encHref (.jobj fs)) = none ∧ pyGet (.jobj fs) "id" = some (.jint n) ∧ n ≠ 0) := by
  unfold specFirstNonzeroIntEncoding at henc
  rw [show nzInt (encBare (.jobj fs)) = none from rfl, Option.none_orElse] at henc
  cases hhr : nzInt (encHref (.jobj fs)) with
  | some k =>
    rw [hhr, Option.some_orElse] at henc
    injection henc with henc
    subst henc
    left
    obtain ⟨hh1, hk⟩ := nzInt_eq_some hhr
    cases hw : treeHrefOf (.jobj fs) with
    | jstr s =>
      refine ⟨s, rfl, ?_, hk⟩
      rw [← encHref_eq_of_href_str hw]
      exact hh1
    | jnull =>
      have hnone : encHref (.jobj fs) = none := by unfold encHref; rw [hw]
      rw [hnone] at hh1
      simp at hh1
    | jint m2 =>
      have hnone : encHref (.jobj fs) = none := by unfold encHref; rw [hw]
      rw [hnone] at hh1
      simp at hh1
    | jarr xs =>
      have hnone : encHref (.jobj fs) = none := by unfold encHref; rw [hw]
      rw [hnone] at hh1
      simp at hh1
    | jobj gs =>
      have hnone : encHref (.jobj fs) = none := by unfold encHref; rw [hw]
      rw [hnone] at hh1
      simp at hh1
  | none =>
    rw [hhr, Option.none_orElse] at henc
    obtain ⟨hh1, hk⟩ := nzInt_eq_some henc
    right
    refine ⟨rfl, ?_, hk⟩
    unfold encId at hh1
    cases hid : pyGet (.jobj fs) "id" with
    | none =>
      rw [hid] at hh1
      simp at hh1
    | some w =>
      rw [hid] at hh1
      cases w with
      | jint m =>
        simp only at hh1
        injection hh1 with hh1
        rw [hh1]
      | jnull => simp at hh1
      | jstr s2 => simp at hh1
      | jarr xs => simp at hh1
      | jobj gs => simp at hh1

theorem nzInt_eq_none {o : Option Int} (h : nzInt o = none) : o = none ∨ o = some 0 := by
  cases o with
  | none => exact Or.inl rfl
  | some m =>
    simp only [nzInt, Option.some_bind] at h
    by_cases hm : m = 0
    · exact Or.inr (by rw [hm])
    · rw [if_neg hm] at h
      simp at h

theorem orElse3_some {a b c : Option Int} {n : Int} (h : (a <|> b <|> c) = some n) :
    a = some n ∨ (a = none ∧ b = some n) ∨ (a = none ∧ b = none ∧ c = some n) := by
  cases a with
  | some x =>
    rw [Option.some_orElse] at h
    exact Or.inl h
  | none =>
    rw [Option.none_orElse] at h
    cases b with
    | some y =>
      rw [Option.some_orElse] at h
      exact Or.inr (Or.inl ⟨rfl, h⟩)
    | none =>
      rw [Option.none_orElse] at h
      exact Or.inr (Or.inr ⟨rfl, rfl, h⟩)

/-- Claim C1 (amended): the extraction tries the three encodings in order
and, whenever it completes without raising, the first encoding yielding a
NONZERO integer wins (zero is falsy, so a zero-valued encoding falls
through to the next one or to the final `ValueError`); for the three
known encodings of tree 786 it extracts 786 in all three cases. -/
theorem tree_id_first_nonzero_encoding_wins :
    (∀ ref n v, specFirstNonzeroIntEncoding ref = some n →
      extract_tree_id ref = .ok v → v = .jint n) ∧
    extract_tree_id (.jint 786) = .ok (.jint 786) ∧
    extract_tree_id (.jobj [("key", .jobj [("href",
      .jstr "https://u.api/data/wow/talent-tree/786/playable-specialization/63")])]) =
      .ok (.jint 786) ∧
    extract_tree_id (.jobj [("id", .jint 786)]) = .ok (.jint 786) := by
  refine ⟨?_, rfl, rfl, rfl⟩
  intro ref n v henc hex
  cases ref with
  | jint m =>
    rcases orElse3_some henc with h1 | ⟨_, h2⟩ | ⟨_, _, h3⟩
    · obtain ⟨hb, hk⟩ := nzInt_eq_some h1
      have hmn : m = n := by simpa [encBare] using hb
      subst hmn
      unfold extract_tree_id at hex
      simp only [Bind.bind, Except.bind, pure, Except.pure] at hex
      rw [if_pos (by simp [truthy, hk])] at hex
      injection hex with hex
      exact hex.symm
    · rw [show nzInt (encHref (.jint m)) = none from rfl] at h2
      simp at h2
    · rw [show nzInt (encId (.jint m)) = none from rfl] at h3
      simp at h3
  | jnull => simp [specFirstNonzeroIntEncoding, encBare, encHref, encId, nzInt] at henc
  | jstr s => simp [specFirstNonzeroIntEncoding, encBare, encHref, encId, nzInt] at henc
  | jarr xs => simp [specFirstNonzeroIntEncoding, encBare, encHref, encId, nzInt] at henc
  | jobj fs =>
    rcases specNonzero_obj_cases henc with ⟨s, hw, hseg, hk⟩ | ⟨hhr, hid, hk⟩
    · rw [extract_tree_id_obj, hw] at hex
      rw [show hrefParse (.jstr s) = .ok (hrefSegmentInt s) from rfl, hseg] at hex
      simp only [Bind.bind, Except.bind] at hex
      rw [extractAfterParse_some_nz hk] at hex
      injection hex with hex
      exact hex.symm
    · rw [extract_tree_id_obj] at hex
      cases hw : treeHrefOf (.jobj fs) with
      | jstr s =>
        rw [hw] at hex
        rw [encHref_eq_of_href_str hw] at hhr
        rcases nzInt_eq_none hhr with hseg | hseg
        · rw [show hrefParse (.jstr s) = .ok (hrefSegmentInt s) from rfl, hseg] at hex
          simp only [Bind.bind, Except.bind] at hex
          rw [(extractAfterParse_fallback hid hk).1] at hex
          injection hex with hex
          exact hex.symm
        · rw [show hrefParse (.jstr s) = .ok (hrefSegmentInt s) from rfl, hseg] at hex
          simp only [Bind.bind, Except.bind] at hex
          rw [(extractAfterParse_fallback hid hk).2] at hex
          injection hex with hex
          exact hex.symm
      | jint m2 =>
        rw [hw] at hex
        simp [hrefParse, Bind.bind, Except.bind] at hex
      | jnull =>
        rw [hw] at hex
        simp [hrefParse, Bind.bind, Except.bind] at hex
      | jarr xs =>
        rw [hw] at hex
        by_cases hmem : (JVal.jstr "/talent-tree/") ∈ xs
        · simp [hrefParse, hmem, Bind.bind, Except.bind] at hex
        · rw [show hrefParse (.jarr xs) =
              (if (JVal.jstr "/talent-tree/") ∈ xs then Except.error "AttributeError: split"
               else .ok none) from rfl] at hex
          rw [if_neg hmem] at hex
          simp only [Bind.bind, Except.bind] at hex
          rw [(extractAfterParse_fallback hid hk).1] at hex
          injection hex with hex
          exact hex.symm
      | jobj gs =>
        rw [hw] at hex
        by_cases hmem : gs.any (fun f => f.1 = "/talent-tree/") = true
        · simp [hrefParse, hmem, Bind.bind, Except.bind] at hex
        · rw [show hrefParse (.jobj gs) =
              (if gs.any (fun f => f.1 = "/talent-tree/") then
                Except.error "AttributeError: split"
               else .ok none) from rfl] at hex
          rw [if_neg hmem] at hex
          simp only [Bind.bind, Except.bind] at hex
          rw [(extractAfterParse_fallback hid hk).1] at hex
          injection hex with hex
          exact hex.symm

def sampleHrefRef : JVal :=
  .jobj [("key", .jobj [("href",
    .jstr "https://u.api/data/wow/talent-tree/786/playable-specialization/63")]),
    ("id", .jint 9999)]

theorem tree_id_first_nonzero_encoding_wins_witness :
    specFirstNonzeroIntEncoding sampleHrefRef = some 786 ∧
    extract_tree_id sampleHrefRef = .ok (.jint 786) ∧
    JVal.jint 786 = .jint 786 :=
  ⟨rfl, rfl, tree_id_first_nonzero_encoding_wins.1 sampleHrefRef 786 (.jint 786) rfl rfl⟩

/-- Claim C1 counterexample: for the reference `{id: 0}` the id encoding
yields the integer `0` — so by the claim the extraction should produce it
— but the code raises `ValueError` instead, because its final check tests
truthiness and `0` is falsy. -/
theorem tree_id_zero_id_not_extracted :
    specFirstIntEncoding (.jobj [("id", .jint 0)]) = some 0 ∧
    excOk (extract_tree_id (.jobj [("id", .jint 0)])) = false :=
  ⟨rfl, rfl⟩
